import Mathlib

/-!
# Verification of the `angular-storyblok` integration library

Shallow embedding of the library's logic units:

* `StoryblokService` (`storyblok.service.ts`): SDK initialization and
  `getStory` fetching with its error handling.
* `LivePreviewService` (`live-preview.ts`): the `enable` entry point and the
  bridge event handler it installs.
* `SbBlokDirective` (`sb-blok.directive.ts`): dynamic component rendering,
  the component cache, and the pending-load race guard, modelled as explicit
  state-passing functions (`handleBlokChange` for the synchronous part of a
  blok change, `completeLoad` for the continuation after `await loader()`).
* `SbRichTextComponent.parseRichText` (`richtext.component.ts`): the
  marker-based splitting of rendered rich text into HTML and blok segments.

External collaborators (the Storyblok SDK's `storyblokInit`, the HTTP client,
the lazy `import()` loaders, the preview bridge) are modelled as oracle
function parameters; JS strings are modelled as `List Char`; JS exceptions as
`Except`.
-/

namespace AngularStoryblok

/-- A Storyblok blok record (`SbBlokData` from `@storyblok/js`).  Only the
fields this library reads are modelled; `payload` stands for all remaining
content and makes "passed through unmodified" meaningful. -/
structure SbBlokData where
  component : Option String
  uid : String
  payload : Nat
  deriving DecidableEq, Repr

/-- A story document (`ISbStoryData`), opaque to this library. -/
structure ISbStoryData where
  id : Nat
  deriving DecidableEq, Repr

/-- JS truthiness of an optional string (`undefined` and `""` are falsy). -/
def strTruthy : Option String → Bool
  | none => false
  | some s => !s.isEmpty

/-- `typeof ngDevMode === 'undefined' || ngDevMode`: `none` models an
undefined `ngDevMode` global (counts as development mode). -/
def devMode : Option Bool → Bool
  | none => true
  | some b => b

/-! ## `StoryblokService` (`storyblok.service.ts`) -/

/-- An SDK plugin passed in the `use` array of `storyblokInit`. -/
inductive SbPlugin where
  | apiPlugin
  deriving DecidableEq, Repr

/-- Pass-through SDK client configuration (`ISbConfig`), opaque here. -/
abbrev ISbConfig := String

/-- `StoryblokBridgeConfigV2`: only `customParent` is read by this library. -/
structure SbBridgeConfig where
  customParent : Option String
  deriving DecidableEq, Repr

/-- `StoryblokConfig` (lines 24-31): `bridge` is `undefined`, a boolean, or a
bridge configuration object. -/
structure StoryblokConfig where
  accessToken : String
  bridge : Option (Bool ⊕ SbBridgeConfig)
  useCustomApi : Option Bool
  apiOptions : Option ISbConfig
  deriving DecidableEq, Repr

/-- `StoryblokApiOptions` (lines 36-43). -/
structure StoryblokApiOptions where
  version : Option String
  resolve_relations : Option String
  resolve_links : Option String
  deriving DecidableEq, Repr

/-- State of a `StoryblokService` instance: the injected platform
(`isBrowser`), the SDK handle and the guard flag (source field
`initialized`; `α` is the opaque type of the SDK api handle). -/
structure SbServiceState (α : Type) where
  isBrowser : Bool
  storyblokApi : Option α
  initDone : Bool
  deriving DecidableEq, Repr

/-- The argument record this service passes to the SDK's `storyblokInit`
(lines 129-135). -/
structure SbInitArgs where
  accessToken : String
  usePlugins : List SbPlugin
  bridge : Bool
  apiOptions : Option ISbConfig
  bridgeUrl : Option String
  deriving DecidableEq, Repr

/-- `bridgeEnabled` (lines 124-127):
`typeof bridge === 'boolean' ? bridge : bridge !== undefined || isBrowser`. -/
def bridgeEnabled (c : StoryblokConfig) (isBrowser : Bool) : Bool :=
  match c.bridge with
  | some (.inl b) => b
  | some (.inr _) => true
  | none => isBrowser

/-- `bridgeUrl` (line 134):
`typeof config.bridge === 'object' ? config.bridge.customParent : undefined`. -/
def bridgeUrlOf (c : StoryblokConfig) : Option String :=
  match c.bridge with
  | some (.inr o) => o.customParent
  | _ => none

/-- The `storyblokInit` call arguments built by `ɵinit` (lines 129-135). -/
def mkInitArgs (c : StoryblokConfig) (isBrowser : Bool) : SbInitArgs :=
  { accessToken := c.accessToken
    usePlugins := if c.useCustomApi.getD false then [] else [SbPlugin.apiPlugin]
    bridge := bridgeEnabled c isBrowser
    apiOptions := c.apiOptions
    bridgeUrl := bridgeUrlOf c }

/-- `StoryblokService.ɵinit` (lines 119-139).  The SDK's `storyblokInit` is
the oracle `sdkInit`; it may return no api handle (custom api mode). -/
def «ɵinit» {α : Type} (s : SbServiceState α) (config : StoryblokConfig)
    (sdkInit : SbInitArgs → Option α) : SbServiceState α :=
  if s.initDone then s
  else
    { s with storyblokApi := sdkInit (mkInitArgs config s.isBrowser), initDone := true }

/-- A request as handed to `storyblokApi.get` (lines 161-165). -/
structure ApiRequest where
  path : String
  version : String
  resolve_relations : Option String
  resolve_links : Option String
  deriving DecidableEq, Repr

/-- `response.data` payload: the optional `story` field. -/
structure ApiRespData where
  story : Option ISbStoryData
  deriving DecidableEq, Repr

/-- A response from `storyblokApi.get`: `data` itself may be absent. -/
structure ApiResponse where
  data : Option ApiRespData
  deriving DecidableEq, Repr

/-- An opaque JS exception value. -/
abbrev SdkError := Nat

/-- Console output of `StoryblokService`. -/
inductive ServiceLog where
  | errorNotInit
  | errorFetchFailed (slug : String)
  deriving DecidableEq, Repr

/-- The request `getStory` issues for a slug and options (lines 161-165);
`options.version ?? 'draft'`. -/
def storyRequest (slug : String) (options : StoryblokApiOptions) : ApiRequest :=
  { path := "cdn/stories/" ++ slug
    version := options.version.getD "draft"
    resolve_relations := options.resolve_relations
    resolve_links := options.resolve_links }

/-- `StoryblokService.getStory` (lines 155-172).  The api client is the
oracle `api`, which may throw (`Except.error`).  The outer `Except` of the
result models whether `getStory` itself rejects. -/
def getStory {α : Type} (s : SbServiceState α) (slug : String)
    (options : StoryblokApiOptions) (api : ApiRequest → Except SdkError ApiResponse) :
    Except SdkError (Option ISbStoryData) × List ServiceLog :=
  match s.storyblokApi with
  | none => (.ok none, [.errorNotInit])
  | some _ =>
    match api (storyRequest slug options) with
    | .error _ => (.ok none, [.errorFetchFailed slug])
    | .ok resp => (.ok (resp.data.bind ApiRespData.story), [])

/-! ## Theorems for C6 and C10 -/

/-- C6: for every slug and options, `StoryblokService.getStory` never
rejects: uninitialized service or a throwing api call yields a console error
and a `null` resolution; on success it resolves to `response.data?.story ??
null`; and when `options.version` is absent the request carries version
`'draft'`. -/
theorem getStory_never_rejects_spec {α : Type} (s : SbServiceState α) (slug : String)
    (options : StoryblokApiOptions) (api : ApiRequest → Except SdkError ApiResponse) :
    (∀ e : SdkError, (getStory s slug options api).1 ≠ .error e)
    ∧ (s.storyblokApi = none →
        getStory s slug options api = (.ok none, [.errorNotInit]))
    ∧ (∀ h : α, s.storyblokApi = some h →
        getStory s slug options api =
          match api (storyRequest slug options) with
          | .error _ => (.ok none, [.errorFetchFailed slug])
          | .ok resp => (.ok (resp.data.bind ApiRespData.story), []))
    ∧ (options.version = none → (storyRequest slug options).version = "draft") := by
  refine ⟨?_, ?_, ?_, ?_⟩
  · intro e
    unfold getStory
    cases hs : s.storyblokApi with
    | none => simp
    | some h => cases hr : api (storyRequest slug options) <;> simp
  · intro h
    unfold getStory
    rw [h]
  · intro h hs
    unfold getStory
    rw [hs]
  · intro hv
    unfold storyRequest
    rw [hv]
    rfl

/-- Witness for C6 at concrete inputs: an uninitialized service resolves to
`null` with a console error, and a default-options request uses version
`'draft'`. -/
theorem getStory_never_rejects_spec_witness :
    getStory (α := Unit) ⟨true, none, false⟩ "home" ⟨none, none, none⟩
        (fun _ => .ok ⟨none⟩) = (.ok none, [.errorNotInit])
    ∧ (storyRequest "home" ⟨none, none, none⟩).version = "draft" :=
  ⟨(getStory_never_rejects_spec ⟨true, none, false⟩ "home" ⟨none, none, none⟩
      (fun _ => .ok ⟨none⟩)).2.1 rfl,
   (getStory_never_rejects_spec (α := Unit) ⟨true, none, false⟩ "home" ⟨none, none, none⟩
      (fun _ => .ok ⟨none⟩)).2.2.2 rfl⟩

/-- C10: `StoryblokService.ɵinit` honours only its first call: initializing
again with any second configuration leaves the service state exactly as the
first call left it. -/
theorem init_second_call_ignored {α : Type} (s : SbServiceState α)
    (c1 c2 : StoryblokConfig) (f g : SbInitArgs → Option α) :
    «ɵinit» («ɵinit» s c1 f) c2 g = «ɵinit» s c1 f := by
  unfold «ɵinit»
  by_cases h : s.initDone <;> simp [h]

/-! ## `LivePreviewService` (`live-preview.ts`) -/

/-- `LivePreviewConfig` (lines 10-22). -/
structure LivePreviewConfig where
  customParent : Option String
  autoReload : Option Bool
  deriving DecidableEq, Repr

/-- An event delivered by the Storyblok preview bridge. -/
structure BridgeEvent where
  action : String
  story : ISbStoryData
  deriving DecidableEq, Repr

/-- Observable outcome of the bridge event handler: run the user callback in
the NgZone, reload the page, or do nothing. -/
inductive HandlerOut where
  | callback (story : ISbStoryData)
  | reload
  | ignore
  deriving DecidableEq, Repr

/-- `this.config?.autoReload ?? true` (line 189). -/
def configAutoReload (config : Option LivePreviewConfig) : Bool :=
  (config.bind LivePreviewConfig.autoReload).getD true

/-- The event handler `enable` registers on the bridge (lines 191-198). -/
def bridgeHandler (autoReload : Bool) (e : BridgeEvent) : HandlerOut :=
  if e.action == "input" then .callback e.story
  else if autoReload && (e.action == "published" || e.action == "change") then .reload
  else .ignore

/-- Injected environment of a `LivePreviewService` instance: platform,
`LIVE_PREVIEW_ENABLED` (defaulted to `false` when absent, line 88),
`LIVE_PREVIEW_CONFIG`, and the `ngDevMode` global. -/
structure LivePreviewEnv where
  isBrowser : Bool
  isEnabled : Bool
  config : Option LivePreviewConfig
  ngDevMode : Option Bool
  deriving DecidableEq, Repr

/-- Mutable state of the service: the lazily created bridge instance
(opaque, identified by a number).  The `bridgePromise` memo only
deduplicates concurrent loads and is collapsed into `bridge` here. -/
structure LPState where
  bridge : Option Nat
  deriving DecidableEq, Repr

/-- The `LivePreviewNotEnabledError` thrown by `enable` (lines 43-56). -/
inductive LPError where
  | livePreviewNotEnabled
  deriving DecidableEq, Repr

/-- A `bridge.on(events, handler)` registration made by `enable`. -/
structure BridgeSubscription where
  events : List String
  handler : BridgeEvent → HandlerOut

/-- `LivePreviewService.enable` (lines 168-199).  `loadBridge` is the oracle
for `import('@storyblok/preview-bridge')` plus construction with
`config?.customParent`; a thrown `LivePreviewNotEnabledError` is the
`Except.error` result (no state is mutated before the throw). -/
def enable (env : LivePreviewEnv) (s : LPState) (loadBridge : Option String → Nat) :
    Except LPError (LPState × Option BridgeSubscription) :=
  if !env.isBrowser then .ok (s, none)
  else if !env.isEnabled then
    if devMode env.ngDevMode then .error .livePreviewNotEnabled
    else .ok (s, none)
  else
    let b := match s.bridge with
      | some b0 => b0
      | none => loadBridge (env.config.bind LivePreviewConfig.customParent)
    .ok ({ s with bridge := some b },
      some { events := ["published", "change", "input"]
             handler := bridgeHandler (configAutoReload env.config) })

/-! ## Theorems for C3 and C7 -/

/-- C3 counterexample: in a browser, with live preview not enabled and
`ngDevMode` undefined (development), `enable` throws
`LivePreviewNotEnabledError` instead of completing without an exception. -/
theorem enable_dev_throws_concrete :
    enable ⟨true, false, none, none⟩ ⟨none⟩ (fun _ => 0) =
      .error .livePreviewNotEnabled := rfl

/-- C3 (amended): in a browser with live preview not enabled, `enable`
throws `LivePreviewNotEnabledError` in development mode and is a silent
no-op in production mode; in neither case is a bridge created or a handler
registered. -/
theorem enable_not_enabled_spec (env : LivePreviewEnv) (s : LPState)
    (loadBridge : Option String → Nat)
    (hb : env.isBrowser = true) (he : env.isEnabled = false) :
    enable env s loadBridge =
      (if devMode env.ngDevMode then .error .livePreviewNotEnabled else .ok (s, none)) := by
  unfold enable
  rw [hb, he]
  simp

/-- Witness for C3 (amended) at a concrete production environment: the call
resolves without an exception and without creating a bridge. -/
theorem enable_not_enabled_spec_witness :
    enable ⟨true, false, none, some false⟩ ⟨none⟩ (fun _ => 0) = .ok (⟨none⟩, none) := by
  have h := enable_not_enabled_spec ⟨true, false, none, some false⟩ ⟨none⟩ (fun _ => 0) rfl rfl
  simpa using h

/-- C7: with live preview enabled in a browser, `enable` registers a handler
for `published`, `change` and `input`; `input` invokes the user callback
with the event story; `published`/`change` reload the page exactly when
`autoReload` holds, which defaults to `true` with no configuration or no
`autoReload` value; with `autoReload := false` those events do nothing. -/
theorem bridge_event_dispatch_spec (env : LivePreviewEnv) (s : LPState)
    (loadBridge : Option String → Nat)
    (hb : env.isBrowser = true) (he : env.isEnabled = true) :
    ∃ s2 sub, enable env s loadBridge = .ok (s2, some sub)
      ∧ sub.events = ["published", "change", "input"]
      ∧ (∀ story, sub.handler ⟨"input", story⟩ = .callback story)
      ∧ (∀ story, sub.handler ⟨"published", story⟩ =
          if configAutoReload env.config then .reload else .ignore)
      ∧ (∀ story, sub.handler ⟨"change", story⟩ =
          if configAutoReload env.config then .reload else .ignore)
      ∧ (env.config = none → configAutoReload env.config = true)
      ∧ (∀ c, env.config = some c → c.autoReload = none →
          configAutoReload env.config = true) := by
  refine ⟨{ s with bridge := some (match s.bridge with
      | some b0 => b0
      | none => loadBridge (env.config.bind LivePreviewConfig.customParent)) },
    { events := ["published", "change", "input"]
      handler := bridgeHandler (configAutoReload env.config) }, ?_, rfl, ?_, ?_, ?_, ?_, ?_⟩
  · unfold enable
    rw [hb, he]
    rfl
  · intro story
    rfl
  · intro story
    cases har : configAutoReload env.config <;> simp [bridgeHandler, har]
  · intro story
    cases har : configAutoReload env.config <;> simp [bridgeHandler, har]
  · intro hc
    simp [configAutoReload, hc]
  · intro c hc har
    simp [configAutoReload, hc, har]

/-- Witness for C7 at a concrete environment with `autoReload := false`:
`input` calls back with the story, `published` neither calls back nor
reloads. -/
theorem bridge_event_dispatch_spec_witness :
    ∃ s2 sub,
      enable ⟨true, true, some ⟨none, some false⟩, none⟩ ⟨none⟩ (fun _ => 7) =
          .ok (s2, some sub)
        ∧ sub.handler ⟨"input", ⟨5⟩⟩ = .callback ⟨5⟩
        ∧ sub.handler ⟨"published", ⟨5⟩⟩ = .ignore := by
  obtain ⟨s2, sub, h1, _, h3, h4, _, _, _⟩ :=
    bridge_event_dispatch_spec ⟨true, true, some ⟨none, some false⟩, none⟩ ⟨none⟩
      (fun _ => 7) rfl rfl
  refine ⟨s2, sub, h1, h3 ⟨5⟩, ?_⟩
  rw [h4 ⟨5⟩]
  decide

/-! ## `SbBlokDirective` (`sb-blok.directive.ts`)

The directive's behaviour is split into the synchronous part of a blok
change (`handleBlokChange`, lines 83-122, including the synchronous prefix
and the cache-hit fast path of `loadAndRenderComponent`, lines 124-160) and
the asynchronous continuation after `await loader()` (`completeLoad`).
An interleaved execution is a sequence of `handleBlokChange` steps and
`completeLoad` steps on the pending loads they spawn. -/

/-- An Angular component class (`Type<unknown>`), opaque: its name. -/
abbrev CompClass := String

/-- An entry of the component registry built by `withStoryblokComponents()`.
Modelled from the spec: `storyblok-components.ts` is not under `src/`; per
its callers in `sb-blok.directive.ts`, an entry is either a component class
or a lazy loader function, and `isComponentLoader` discriminates the two,
which the constructors encode directly (loaders are opaque, identified by a
number). -/
inductive RegistryEntry where
  | direct (cls : CompClass)
  | lazy (loaderId : Nat)
  deriving DecidableEq, Repr

/-- The injected `STORYBLOK_COMPONENTS` record. -/
abbrev Registry := List (String × RegistryEntry)

/-- Record lookup / `Map.get`. -/
def lookupKV {β : Type} : List (String × β) → String → Option β
  | [], _ => none
  | (k, v) :: rest, key => if k = key then some v else lookupKV rest key

/-- `Map.set`: overwrite an existing binding or append a new one. -/
def insertKV {β : Type} (key : String) (v : β) : List (String × β) → List (String × β)
  | [] => [(key, v)]
  | (k, w) :: rest => if k = key then (key, v) :: rest else (k, w) :: insertKV key v rest

/-- A component instance living in the `ViewContainerRef`: its identity,
class, the `blok` input last set on it, and the storyblok editable host
attributes. -/
structure CompInstance where
  instId : Nat
  cls : CompClass
  blokInput : Option SbBlokData
  attrBlokC : Option String
  attrBlokUid : Option String
  deriving DecidableEq, Repr

/-- The mutable fields of an `SbBlokDirective` instance (lines 55-66),
together with the view container contents and a fresh-identity counter for
created component instances. -/
structure DirectiveState where
  componentCache : List (String × CompClass)
  currentComponentRef : Option Nat
  currentComponentName : Option String
  pendingLoadId : Nat
  isDestroyed : Bool
  view : List CompInstance
  nextInstId : Nat
  deriving DecidableEq, Repr

/-- Console output of the directive. -/
inductive DirLog where
  | warnNotFound (name : String)
  | errorLoadFailed (name : String)
  deriving DecidableEq, Repr

/-- A lazy load in flight: the `loadId` captured from `++this.pendingLoadId`
(line 130), the component name, and which loader was invoked. -/
structure PendingLoad where
  loadId : Nat
  componentName : String
  loaderId : Nat
  deriving DecidableEq, Repr

/-- The external `storyblokEditable` from `@storyblok/js`, as an oracle:
`some (c, uid)` when it yields a truthy `data-blok-c` (line 186). -/
abbrev EditableOracle := SbBlokData → Option (String × String)

/-- The attribute part of `updateComponent` (lines 182-189). -/
def applyEditable (ed : EditableOracle) (b : SbBlokData) (ci : CompInstance) : CompInstance :=
  match ed b with
  | some (c, uid) => { ci with attrBlokC := some c, attrBlokUid := some uid }
  | none => ci

/-- `updateComponent` (lines 173-190) applied to the view: sets the `blok`
input and the editable attributes on the component with identity `refId`
(change detection has no further observable effect in this model). -/
def updateView (ed : EditableOracle) (refId : Nat) (b : SbBlokData)
    (view : List CompInstance) : List CompInstance :=
  view.map fun ci =>
    if ci.instId = refId then applyEditable ed b { ci with blokInput := some b } else ci

/-- `createAndRenderComponent` (lines 162-171): append a fresh instance to
the view container, track it, and run `updateComponent` on it. -/
def createAndRenderComponent (ed : EditableOracle) (cls : CompClass) (b : SbBlokData)
    (s : DirectiveState) : DirectiveState :=
  let inst : CompInstance :=
    { instId := s.nextInstId, cls := cls, blokInput := none
      attrBlokC := none, attrBlokUid := none }
  { s with
    view := updateView ed inst.instId b (s.view ++ [inst])
    nextInstId := s.nextInstId + 1
    currentComponentRef := some inst.instId
    currentComponentName := b.component }

/-- `cleanup` (lines 192-196). -/
def cleanup (s : DirectiveState) : DirectiveState :=
  { s with view := [], currentComponentRef := none, currentComponentName := none }

/-- The branch of `handleBlokChange` below the same-component check (lines
113-121), inlining the synchronous prefix of `loadAndRenderComponent`
(lines 129-143): bump `pendingLoadId`, then either render from the cache in
the same tick (no `await` is reached on a cache hit) or spawn the load. -/
def recreateComponent (ed : EditableOracle) (entry : RegistryEntry) (name : String)
    (b : SbBlokData) (s : DirectiveState) :
    DirectiveState × List DirLog × Option PendingLoad :=
  let s1 := cleanup s
  match entry with
  | .direct cls => (createAndRenderComponent ed cls b s1, [], none)
  | .lazy loaderId =>
    let loadId := s1.pendingLoadId + 1
    let s2 := { s1 with pendingLoadId := loadId }
    match lookupKV s2.componentCache name with
    | some cls =>
      if s2.isDestroyed then (s2, [], none)
      else if loadId = s2.pendingLoadId then
        (if b.component = some name then (createAndRenderComponent ed cls b s2, [], none)
         else (s2, [], none))
      else (s2, [], none)
    | none => (s2, [], some ⟨loadId, name, loaderId⟩)

/-- `SbBlokDirective.handleBlokChange` (lines 83-122).  `dev` is the
`ngDevMode` global, `components` the optionally injected registry, `blok`
the current `sbBlok()` input. -/
def handleBlokChange (ed : EditableOracle) (dev : Option Bool)
    (components : Option Registry) (blok : Option SbBlokData) (s : DirectiveState) :
    DirectiveState × List DirLog × Option PendingLoad :=
  if s.isDestroyed then (s, [], none)
  else
    match components, blok with
    | none, _ => (cleanup s, [], none)
    | some _, none => (cleanup s, [], none)
    | some reg, some b =>
      match b.component with
      | none => (cleanup s, [], none)
      | some name =>
        if name = "" then (cleanup s, [], none)
        else
          match lookupKV reg name with
          | none => (cleanup s, (if devMode dev then [.warnNotFound name] else []), none)
          | some entry =>
            match s.currentComponentRef with
            | some refId =>
              if s.currentComponentName = some name then
                ({ s with view := updateView ed refId b s.view }, [], none)
              else recreateComponent ed entry name b s
            | none => recreateComponent ed entry name b s

/-- The continuation of `loadAndRenderComponent` after `await loader()`
(lines 135-159): `outcome` is the loader promise settling, `currentBlok` the
value of `this.sbBlok()` re-read at resume time (line 156).  A rejected
loader is caught (line 139): the console error is the only effect. -/
def completeLoad (ed : EditableOracle) (p : PendingLoad)
    (outcome : Except Unit CompClass) (currentBlok : Option SbBlokData)
    (s : DirectiveState) : DirectiveState × List DirLog :=
  match outcome with
  | .error _ => (s, [.errorLoadFailed p.componentName])
  | .ok cls =>
    let s1 := { s with componentCache := insertKV p.componentName cls s.componentCache }
    if s1.isDestroyed then (s1, [])
    else if p.loadId = s1.pendingLoadId then
      (match currentBlok with
       | some b =>
         if b.component = some p.componentName
         then (createAndRenderComponent ed cls b s1, []) else (s1, [])
       | none => (s1, []))
    else (s1, [])

/-! ## Lemmas about the directive semantics -/

theorem lookupKV_insertKV_self {β : Type} (key : String) (v : β)
    (m : List (String × β)) : lookupKV (insertKV key v m) key = some v := by
  induction m with
  | nil => simp [insertKV, lookupKV]
  | cons kv rest ih =>
    obtain ⟨k, w⟩ := kv
    by_cases h : k = key
    · simp [insertKV, lookupKV, h]
    · simp [insertKV, lookupKV, h, ih]

theorem cleanup_componentCache (s : DirectiveState) :
    (cleanup s).componentCache = s.componentCache := rfl

theorem createAndRender_componentCache (ed : EditableOracle) (cls : CompClass)
    (b : SbBlokData) (s : DirectiveState) :
    (createAndRenderComponent ed cls b s).componentCache = s.componentCache := rfl

theorem recreateComponent_componentCache (ed : EditableOracle) (entry : RegistryEntry)
    (name : String) (b : SbBlokData) (s : DirectiveState) :
    (recreateComponent ed entry name b s).1.componentCache = s.componentCache := by
  unfold recreateComponent createAndRenderComponent cleanup
  dsimp only
  repeat' split
  all_goals rfl

theorem handleBlokChange_componentCache (ed : EditableOracle) (dev : Option Bool)
    (components : Option Registry) (blok : Option SbBlokData) (s : DirectiveState) :
    (handleBlokChange ed dev components blok s).1.componentCache = s.componentCache := by
  unfold handleBlokChange
  repeat' split
  all_goals first
    | rfl
    | exact recreateComponent_componentCache ..

/-! ## Theorems for C2, C4, C5, C8, C9 -/

/-- C4: a blok naming an unregistered component makes `handleBlokChange` a
warn-and-no-op: the view container is cleared, nothing is tracked as
rendered, no instance is created (identity counter unchanged), no load is
spawned, and the console warning appears exactly in development mode. -/
theorem handleBlokChange_missing_component_noop (ed : EditableOracle) (dev : Option Bool)
    (reg : Registry) (b : SbBlokData) (s : DirectiveState) (name : String)
    (hd : s.isDestroyed = false) (hc : b.component = some name) (hne : name ≠ "")
    (hmiss : lookupKV reg name = none) :
    handleBlokChange ed dev (some reg) (some b) s =
      (cleanup s, (if devMode dev then [.warnNotFound name] else []), none)
    ∧ (cleanup s).view = []
    ∧ (cleanup s).currentComponentRef = none
    ∧ (cleanup s).currentComponentName = none
    ∧ (cleanup s).nextInstId = s.nextInstId := by
  refine ⟨?_, rfl, rfl, rfl, rfl⟩
  simp [handleBlokChange, hd, hc, hmiss, hne]

/-- Witness for C4: concrete blok `"missing"` against a registry holding
only `"teaser"`, in development mode. -/
theorem handleBlokChange_missing_component_noop_witness :
    handleBlokChange (fun _ => none) none (some [("teaser", .direct "TeaserCls")])
        (some ⟨some "missing", "u0", 3⟩) ⟨[], none, none, 0, false, [], 0⟩ =
      (⟨[], none, none, 0, false, [], 0⟩, [.warnNotFound "missing"], none) := by
  have h := handleBlokChange_missing_component_noop (fun _ => none) none
    [("teaser", .direct "TeaserCls")] ⟨some "missing", "u0", 3⟩
    ⟨[], none, none, 0, false, [], 0⟩ "missing" rfl rfl (by decide) rfl
  simpa [cleanup, devMode] using h.1

/-- C5: a rejected loader promise is caught inside `loadAndRenderComponent`:
the only effect is the console error, the state (in particular the component
cache) is exactly unchanged, and, the cache having gained no entry, a later
blok change for that component spawns the loader again. -/
theorem completeLoad_failure_no_render (ed : EditableOracle) (p : PendingLoad)
    (cb : Option SbBlokData) (s : DirectiveState) :
    completeLoad ed p (.error ()) cb s = (s, [.errorLoadFailed p.componentName])
    ∧ (∀ (dev : Option Bool) (reg : Registry) (b : SbBlokData) (lid : Nat),
        s.isDestroyed = false → b.component = some p.componentName →
        p.componentName ≠ "" →
        lookupKV reg p.componentName = some (.lazy lid) →
        lookupKV s.componentCache p.componentName = none →
        s.currentComponentRef = none →
        (handleBlokChange ed dev (some reg) (some b) s).2.2 =
          some ⟨s.pendingLoadId + 1, p.componentName, lid⟩) := by
  constructor
  · rfl
  · intro dev reg b lid hd hb hne hreg hcache href
    simp [handleBlokChange, recreateComponent, cleanup, hd, hb, hne, hreg, hcache, href]

/-- Witness for C5: a concrete failed load leaves the fresh state unchanged,
and the next blok change spawns load 2 for the same loader. -/
theorem completeLoad_failure_no_render_witness :
    completeLoad (fun _ => none) ⟨1, "alpha", 0⟩ (.error ()) (some ⟨some "alpha", "u1", 0⟩)
        ⟨[], none, none, 1, false, [], 0⟩ =
      (⟨[], none, none, 1, false, [], 0⟩, [.errorLoadFailed "alpha"])
    ∧ (handleBlokChange (fun _ => none) (some true) (some [("alpha", .lazy 0)])
        (some ⟨some "alpha", "u1", 0⟩) ⟨[], none, none, 1, false, [], 0⟩).2.2 =
      some ⟨2, "alpha", 0⟩ :=
  ⟨(completeLoad_failure_no_render (fun _ => none) ⟨1, "alpha", 0⟩
      (some ⟨some "alpha", "u1", 0⟩) ⟨[], none, none, 1, false, [], 0⟩).1,
   (completeLoad_failure_no_render (fun _ => none) ⟨1, "alpha", 0⟩
      (some ⟨some "alpha", "u1", 0⟩) ⟨[], none, none, 1, false, [], 0⟩).2
     (some true) [("alpha", .lazy 0)] ⟨some "alpha", "u1", 0⟩ 0
     rfl rfl (by decide) rfl rfl rfl⟩

/-- C8: the per-instance component cache makes each loader's success final:
a successful completion stores the class under the component name;
`handleBlokChange` never alters the cache; and on a cache hit a blok change
spawns no load at all, rendering the cached class synchronously when a
different component was displayed. -/
theorem loader_cached_after_success :
    (∀ (ed : EditableOracle) (p : PendingLoad) (cls : CompClass)
        (cb : Option SbBlokData) (s : DirectiveState),
      lookupKV (completeLoad ed p (.ok cls) cb s).1.componentCache p.componentName = some cls)
    ∧ (∀ (ed : EditableOracle) (dev : Option Bool) (comps : Option Registry)
        (blok : Option SbBlokData) (s : DirectiveState),
        (handleBlokChange ed dev comps blok s).1.componentCache = s.componentCache)
    ∧ (∀ (ed : EditableOracle) (dev : Option Bool) (reg : Registry) (b : SbBlokData)
        (s : DirectiveState) (name : String) (lid : Nat) (cls : CompClass),
        s.isDestroyed = false → b.component = some name → name ≠ "" →
        lookupKV reg name = some (.lazy lid) →
        lookupKV s.componentCache name = some cls →
        (handleBlokChange ed dev (some reg) (some b) s).2.2 = none)
    ∧ (∀ (ed : EditableOracle) (dev : Option Bool) (reg : Registry) (b : SbBlokData)
        (s : DirectiveState) (name : String) (lid : Nat) (cls : CompClass),
        s.isDestroyed = false → b.component = some name → name ≠ "" →
        lookupKV reg name = some (.lazy lid) →
        lookupKV s.componentCache name = some cls →
        s.currentComponentRef = none →
        (handleBlokChange ed dev (some reg) (some b) s).1 =
          createAndRenderComponent ed cls b
            { cleanup s with pendingLoadId := s.pendingLoadId + 1 }) := by
  refine ⟨?_, handleBlokChange_componentCache, ?_, ?_⟩
  · intro ed p cls cb s
    unfold completeLoad
    simp only
    by_cases hd : s.isDestroyed = true
    · simp [hd, lookupKV_insertKV_self]
    · by_cases hl : p.loadId = s.pendingLoadId
      · cases cb with
        | none => simp [hd, hl, lookupKV_insertKV_self]
        | some b =>
          by_cases hb : b.component = some p.componentName <;>
            simp [hd, hl, hb, lookupKV_insertKV_self, createAndRenderComponent]
      · simp [hd, hl, lookupKV_insertKV_self]
  · intro ed dev reg b s name lid cls hd hb hne hreg hcache
    cases href : s.currentComponentRef with
    | none =>
      simp [handleBlokChange, recreateComponent, cleanup, hd, hb, hne, hreg, hcache, href]
    | some refId =>
      by_cases hcur : s.currentComponentName = some name
      · simp [handleBlokChange, hd, hb, hne, hreg, href, hcur]
      · simp [handleBlokChange, recreateComponent, cleanup, hd, hb, hne, hreg, hcache,
          href, hcur]
  · intro ed dev reg b s name lid cls hd hb hne hreg hcache href
    simp [handleBlokChange, recreateComponent, cleanup, createAndRenderComponent,
      hd, hb, hne, hreg, hcache, href]

/-- Witness for C8: a success caches the class; a following blok change
renders from the cache without spawning a load. -/
theorem loader_cached_after_success_witness :
    lookupKV (completeLoad (fun _ => none) ⟨1, "alpha", 0⟩ (.ok "AlphaCls") none
        ⟨[], none, none, 2, false, [], 0⟩).1.componentCache "alpha" = some "AlphaCls"
    ∧ (handleBlokChange (fun _ => none) (some true) (some [("alpha", .lazy 0)])
        (some ⟨some "alpha", "u1", 0⟩)
        ⟨[("alpha", "AlphaCls")], none, none, 2, false, [], 0⟩).2.2 = none :=
  ⟨loader_cached_after_success.1 (fun _ => none) ⟨1, "alpha", 0⟩ "AlphaCls" none
      ⟨[], none, none, 2, false, [], 0⟩,
   loader_cached_after_success.2.2.1 (fun _ => none) (some true) [("alpha", .lazy 0)]
      ⟨some "alpha", "u1", 0⟩ ⟨[("alpha", "AlphaCls")], none, none, 2, false, [], 0⟩
      "alpha" 0 "AlphaCls" rfl rfl (by decide) rfl rfl⟩

/-- C9: a blok change whose component name equals the currently rendered
component's name updates in place: the view is not cleared, no instance is
created, only the tracked instance's `blok` input and editable attributes
change, and cache, tracking fields, load counter and identity counter are
untouched. -/
theorem same_component_update_in_place (ed : EditableOracle) (dev : Option Bool)
    (reg : Registry) (b : SbBlokData) (s : DirectiveState) (name : String)
    (refId : Nat) (entry : RegistryEntry)
    (hd : s.isDestroyed = false) (hc : b.component = some name) (hne : name ≠ "")
    (hentry : lookupKV reg name = some entry)
    (href : s.currentComponentRef = some refId)
    (hname : s.currentComponentName = some name) :
    handleBlokChange ed dev (some reg) (some b) s =
      ({ s with view := updateView ed refId b s.view }, [], none)
    ∧ (updateView ed refId b s.view).map (fun ci => (ci.instId, ci.cls)) =
        s.view.map (fun ci => (ci.instId, ci.cls))
    ∧ (∀ ci ∈ s.view, ci.instId ≠ refId → ci ∈ updateView ed refId b s.view) := by
  refine ⟨?_, ?_, ?_⟩
  · simp [handleBlokChange, hd, hc, hne, hentry, href, hname]
  · unfold updateView
    rw [List.map_map]
    refine List.map_congr_left ?_
    intro ci _
    by_cases h : ci.instId = refId
    · simp only [Function.comp_apply, h, if_true]
      unfold applyEditable
      cases ed b with
      | none => rfl
      | some pr => obtain ⟨c, uid⟩ := pr; rfl
    · simp [Function.comp_apply, h]
  · intro ci hci h
    unfold updateView
    exact List.mem_map.mpr ⟨ci, hci, by simp [h]⟩

/-- Witness for C9: updating a rendered `"teaser"` with a new blok of the
same component leaves the instance in place and sets its input. -/
theorem same_component_update_in_place_witness :
    handleBlokChange (fun _ => none) (some true) (some [("teaser", .direct "TeaserCls")])
        (some ⟨some "teaser", "u2", 9⟩)
        ⟨[], some 0, some "teaser", 0, false,
          [⟨0, "TeaserCls", some ⟨some "teaser", "u1", 1⟩, none, none⟩], 1⟩ =
      (⟨[], some 0, some "teaser", 0, false,
          [⟨0, "TeaserCls", some ⟨some "teaser", "u2", 9⟩, none, none⟩], 1⟩, [], none) := by
  have h := same_component_update_in_place (fun _ => none) (some true)
    [("teaser", .direct "TeaserCls")] ⟨some "teaser", "u2", 9⟩
    ⟨[], some 0, some "teaser", 0, false,
      [⟨0, "TeaserCls", some ⟨some "teaser", "u1", 1⟩, none, none⟩], 1⟩
    "teaser" 0 (.direct "TeaserCls") rfl rfl (by decide) rfl rfl rfl
  rw [h.1]
  rfl

/-! ### C2: the pending-load race guard -/

/-- The editable oracle and concrete scenario for the C2 counterexample. -/
def ed0 : EditableOracle := fun _ => none

def c2Reg : Registry := [("alpha", .lazy 0), ("beta", .lazy 1)]

def c2BlokA : SbBlokData := ⟨some "alpha", "u1", 0⟩

def c2BlokB : SbBlokData := ⟨some "beta", "u2", 0⟩

def c2S0 : DirectiveState := ⟨[], none, none, 0, false, [], 0⟩

/-- Blok `alpha` arrives: load 1 spawns. -/
def c2Step1 := handleBlokChange ed0 (some true) (some c2Reg) (some c2BlokA) c2S0

/-- Blok `beta` arrives before load 1 settles: load 2 spawns. -/
def c2Step2 := handleBlokChange ed0 (some true) (some c2Reg) (some c2BlokB) c2Step1.1

/-- Blok `alpha` again, still nothing settled: load 3 spawns. -/
def c2Step3 := handleBlokChange ed0 (some true) (some c2Reg) (some c2BlokA) c2Step2.1

/-- Load 1 now resolves successfully, with the current blok still `alpha`. -/
def c2Final := completeLoad ed0 ⟨1, "alpha", 0⟩ (.ok "AlphaCls") (some c2BlokA) c2Step3.1

/-- C2 counterexample: the directive does constrain which load's completion
renders.  In the concrete overlapping-load run `c2Step1`-`c2Final`, load 1
for `alpha` completes successfully while the directive is alive and the
current blok still names `alpha`, yet nothing is rendered — its `loadId` 1
no longer equals `pendingLoadId` 3, so the stale-load guard (line 151)
discards it and only the cache is written. -/
theorem stale_load_discarded_concrete :
    c2Step1.2.2 = some ⟨1, "alpha", 0⟩
    ∧ c2Step3.1.pendingLoadId = 3
    ∧ c2Step3.1.isDestroyed = false
    ∧ c2BlokA.component = some "alpha"
    ∧ c2Final.1.view = []
    ∧ c2Final.1.currentComponentRef = none
    ∧ c2Final.1.currentComponentName = none
    ∧ lookupKV c2Final.1.componentCache "alpha" = some "AlphaCls" := by
  decide

/-- C2 (amended): the `pendingLoadId` guard is a last-writer-wins ordering
constraint on overlapping lazy loads: a completion whose `loadId` is not the
latest only writes the cache and renders nothing, while the latest
completion (directive alive, blok still matching) renders its component. -/
theorem completeLoad_latest_wins (ed : EditableOracle) (p : PendingLoad)
    (cls : CompClass) (cb : Option SbBlokData) (s : DirectiveState) :
    (p.loadId ≠ s.pendingLoadId →
      completeLoad ed p (.ok cls) cb s =
        ({ s with componentCache := insertKV p.componentName cls s.componentCache }, []))
    ∧ (∀ b : SbBlokData, cb = some b → b.component = some p.componentName →
        p.loadId = s.pendingLoadId → s.isDestroyed = false →
        completeLoad ed p (.ok cls) cb s =
          (createAndRenderComponent ed cls b
            { s with componentCache := insertKV p.componentName cls s.componentCache },
           [])) := by
  constructor
  · intro h
    unfold completeLoad
    by_cases hd : s.isDestroyed = true
    · simp [hd]
    · simp [hd, h]
  · intro b hcb hbc hl hd
    unfold completeLoad
    rw [hcb]
    simp [hd, hl, hbc]

/-- Witness for C2 (amended): the stale completion from the counterexample
run, and a fresh completion that does render. -/
theorem completeLoad_latest_wins_witness :
    completeLoad ed0 ⟨1, "alpha", 0⟩ (.ok "AlphaCls") (some c2BlokA) c2Step3.1 =
      ({ c2Step3.1 with
          componentCache := insertKV "alpha" "AlphaCls" c2Step3.1.componentCache }, [])
    ∧ completeLoad ed0 ⟨3, "alpha", 0⟩ (.ok "AlphaCls") (some c2BlokA) c2Step3.1 =
      (createAndRenderComponent ed0 "AlphaCls" c2BlokA
        { c2Step3.1 with
            componentCache := insertKV "alpha" "AlphaCls" c2Step3.1.componentCache }, []) :=
  ⟨(completeLoad_latest_wins ed0 ⟨1, "alpha", 0⟩ "AlphaCls" (some c2BlokA) c2Step3.1).1
      (by decide),
   (completeLoad_latest_wins ed0 ⟨3, "alpha", 0⟩ "AlphaCls" (some c2BlokA) c2Step3.1).2
      c2BlokA rfl rfl (by decide) (by decide)⟩

/-! ## `SbRichTextComponent.parseRichText` (`richtext.component.ts`, lines 101-152)

JS strings are modelled as `List Char`.  The external
`richTextResolver(options).render(doc)` from `@storyblok/richtext` is
modelled with default options: a document is a tree of text nodes, element
nodes (one of the fixed tags the default resolvers emit, attribute-free
here) and `BlockTypes.COMPONENT` nodes; text renders HTML-escaped, elements
render as `<tag>…</tag>`, and COMPONENT nodes go through the custom
resolver installed by `parseRichText` (lines 111-123): push the non-empty
`body` array onto `blokGroups` and emit the `<!--SB_BLOK_GROUP_i-->`
marker, else emit the empty string.  The splitting and the segment loop
(lines 130-149) are transcribed exactly; the `DomSanitizer` is modelled as
the identity on the HTML text. -/

/-- The `attrs['body']` value of a COMPONENT node: an array of bloks, or any
non-array value (`Array.isArray` fails). -/
inductive BodyVal where
  | arr (bloks : List SbBlokData)
  | nonArray
  deriving DecidableEq, Repr

/-- The fixed tag set emitted by the default resolvers of
`@storyblok/richtext` that this model covers. -/
inductive Tag where
  | p | h1 | h2 | ul | ol | li | em | strong
  deriving DecidableEq, Repr

def tagChars : Tag → List Char
  | .p => ['p']
  | .h1 => ['h', '1']
  | .h2 => ['h', '2']
  | .ul => ['u', 'l']
  | .ol => ['o', 'l']
  | .li => ['l', 'i']
  | .em => ['e', 'm']
  | .strong => ['s', 't', 'r', 'o', 'n', 'g']

mutual
/-- A rich text node (`StoryblokRichTextNode`). -/
inductive RTNode where
  | text (s : List Char)
  | elem (tag : Tag) (children : RTForest)
  | component (body : Option BodyVal)
/-- A list of sibling rich text nodes (the `content` of a node). -/
inductive RTForest where
  | nil
  | cons (hd : RTNode) (tl : RTForest)
end

/-- HTML escaping of one text character by the default text resolver. -/
def escC (c : Char) : List Char :=
  if c = '<' then ['&', 'l', 't', ';']
  else if c = '>' then ['&', 'g', 't', ';']
  else if c = '&' then ['&', 'a', 'm', 'p', ';']
  else [c]

def escapeHtml : List Char → List Char
  | [] => []
  | c :: rest => escC c ++ escapeHtml rest

def openTag (t : Tag) : List Char := '<' :: (tagChars t ++ ['>'])

def closeTag (t : Tag) : List Char := '<' :: '/' :: (tagChars t ++ ['>'])

/-- Decimal digit characters of a number, most significant first (the JS
template-string rendering of `blokGroups.length - 1`, line 122). -/
def digitChr (d : Nat) : Char :=
  match d with
  | 0 => '0' | 1 => '1' | 2 => '2' | 3 => '3' | 4 => '4'
  | 5 => '5' | 6 => '6' | 7 => '7' | 8 => '8' | _ => '9'

def natDigits (n : Nat) : List Char :=
  if n = 0 then ['0'] else ((Nat.digits 10 n).map digitChr).reverse

def markerPre : List Char :=
  ['<', '!', '-', '-', 'S', 'B', '_', 'B', 'L', 'O', 'K', '_', 'G', 'R', 'O', 'U', 'P', '_']

def markerSuf : List Char := ['-', '-', '>']

/-- The marker `<!--SB_BLOK_GROUP_i-->` returned by the custom COMPONENT
resolver (line 122). -/
def marker (i : Nat) : List Char := markerPre ++ natDigits i ++ markerSuf

mutual
/-- `richTextResolver(options).render(doc)` (line 127) with the custom
COMPONENT resolver of lines 111-123, state-passing the mutable `blokGroups`
array: returns the HTML string and the updated groups. -/
def renderNode : RTNode → List (List SbBlokData) → List Char × List (List SbBlokData)
  | .text s, g => (escapeHtml s, g)
  | .elem t cs, g =>
    let r := renderForest cs g
    (openTag t ++ r.1 ++ closeTag t, r.2)
  | .component body, g =>
    match body with
    | some (.arr bs) => if bs.isEmpty then ([], g) else (marker g.length, g ++ [bs])
    | _ => ([], g)
def renderForest : RTForest → List (List SbBlokData) → List Char × List (List SbBlokData)
  | .nil, g => ([], g)
  | .cons n f, g =>
    let r1 := renderNode n g
    let r2 := renderForest f r1.2
    (r1.1 ++ r2.1, r2.2)
end

/-- Strip a literal from the front of a string. -/
def chopLit : List Char → List Char → Option (List Char)
  | [], l => some l
  | _ :: _, [] => none
  | p :: ps, c :: cs => if c = p then chopLit ps cs else none

/-- Match the regex `<!--SB_BLOK_GROUP_(\d+)-->` at the head of the string,
returning the captured digits and the remainder.  Greedy `\d+` followed by
the mandatory `-->` matches exactly the maximal digit run followed by
`-->`: backtracking to a shorter run would place a digit where `-` must
stand. -/
def matchMarker (l : List Char) : Option (List Char × List Char) :=
  match chopLit markerPre l with
  | none => none
  | some r =>
    let d := r.takeWhile Char.isDigit
    let r2 := r.dropWhile Char.isDigit
    if d.isEmpty then none
    else
      match chopLit markerSuf r2 with
      | none => none
      | some r3 => some (d, r3)

theorem chopLit_some (p : List Char) :
    ∀ (l r : List Char), chopLit p l = some r → l = p ++ r := by
  induction p with
  | nil => intro l r h; simpa [chopLit] using h
  | cons c ps ih =>
    intro l r h
    cases l with
    | nil => simp [chopLit] at h
    | cons d ds =>
      rw [chopLit] at h
      by_cases hd : d = c
      · rw [if_pos hd] at h
        simp [hd, ih ds r h]
      · rw [if_neg hd] at h
        exact absurd h (by simp)

theorem matchMarker_shorter (l d after : List Char)
    (h : matchMarker l = some (d, after)) : after.length < l.length := by
  unfold matchMarker at h
  cases h1 : chopLit markerPre l with
  | none => rw [h1] at h; simp at h
  | some r =>
    rw [h1] at h
    simp only at h
    by_cases he : (r.takeWhile Char.isDigit).isEmpty
    · rw [if_pos he] at h; simp at h
    · rw [if_neg he] at h
      cases h2 : chopLit markerSuf (r.dropWhile Char.isDigit) with
      | none => rw [h2] at h; simp at h
      | some r3 =>
        rw [h2] at h
        simp only [Option.some.injEq, Prod.mk.injEq] at h
        obtain ⟨hd, hafter⟩ := h
        have e1 : l = markerPre ++ r := chopLit_some _ _ _ h1
        have e2 : List.dropWhile Char.isDigit r = markerSuf ++ r3 := chopLit_some _ _ _ h2
        have e3 : List.takeWhile Char.isDigit r ++ List.dropWhile Char.isDigit r = r :=
          List.takeWhile_append_dropWhile (p := Char.isDigit) (l := r)
        have hlen : l.length = markerPre.length + r.length := by
          rw [e1]; simp
        have hr : r.length = (List.takeWhile Char.isDigit r).length +
            (markerSuf.length + r3.length) := by
          conv_lhs => rw [← e3]
          rw [e2]
          simp
        rw [← hafter]
        simp only [markerPre, markerSuf, List.length_cons, List.length_nil] at hlen hr
        omega

/-- The JS `html.split(/<!--SB_BLOK_GROUP_(\d+)-->/)` (line 130): parts
between matches at even positions, the captured digit strings interleaved
at odd positions.  `cur` is the reversed accumulator of the current part. -/
def splitAux : List Char → List Char → List (List Char)
  | [], cur => [cur.reverse]
  | c :: rest, cur =>
    match h : matchMarker (c :: rest) with
    | some (d, after) => cur.reverse :: d :: splitAux after []
    | none => splitAux rest (c :: cur)
termination_by l _ => l.length
decreasing_by
  · simpa using matchMarker_shorter _ _ _ h
  · simp

def splitMarkers (l : List Char) : List (List Char) := splitAux l []

/-- JS `String.prototype.trim`. -/
def trimJs (l : List Char) : List Char :=
  ((l.dropWhile Char.isWhitespace).reverse.dropWhile Char.isWhitespace).reverse

/-- A parsed segment (`RichTextSegment`): sanitized HTML or an embedded
blok. -/
inductive Seg where
  | html (content : List Char)
  | blok (b : SbBlokData)
  deriving DecidableEq, Repr

/-- `parseInt(parts[i], 10)` on the captured digit string. -/
def digitVal (c : Char) : Nat := c.toNat - 48

def digitsVal (l : List Char) : Nat := l.foldl (fun a c => 10 * a + digitVal c) 0

/-- The segment-building loop of `parseRichText` (lines 132-149): even parts
are trimmed HTML (skipped when empty), odd parts are group indices whose
bloks are appended one segment each (skipped when the index misses). -/
def segLoop : List (List Char) → Bool → List (List SbBlokData) → List Seg
  | [], _, _ => []
  | part :: rest, odd, groups =>
    if odd then
      (match groups.get? (digitsVal part) with
       | some bs => bs.map Seg.blok
       | none => []) ++ segLoop rest false groups
    else
      (if (trimJs part).isEmpty then [] else [Seg.html (trimJs part)]) ++
        segLoop rest true groups

/-- `SbRichTextComponent.parseRichText` (lines 101-152). -/
def parseRichText (doc : RTNode) : List Seg :=
  let r := renderNode doc []
  segLoop (splitMarkers r.1) false r.2

/-- The blok subsequence of a segment list. -/
def segBloks (segs : List Seg) : List SbBlokData :=
  segs.filterMap fun s => match s with | .blok b => some b | .html _ => none

mutual
/-- Specification side, from the claim's words: the bloks of all non-empty
array `body` attributes of COMPONENT nodes, flattened in document order. -/
def docBloks : RTNode → List SbBlokData
  | .text _ => []
  | .elem _ cs => forestBloks cs
  | .component body =>
    match body with
    | some (.arr bs) => bs
    | _ => []
def forestBloks : RTForest → List SbBlokData
  | .nil => []
  | .cons n f => docBloks n ++ forestBloks f
end

/-! ### Piece decomposition of the rendered HTML

The rendered string is a concatenation of marker-free chunks and markers;
the split is computed against this decomposition. -/

inductive Piece where
  | raw (s : List Char)
  | mark (i : Nat)
  deriving DecidableEq, Repr

def flatPieces : List Piece → List Char
  | [] => []
  | .raw s :: ps => s ++ flatPieces ps
  | .mark i :: ps => marker i ++ flatPieces ps

mutual
/-- The groups the custom COMPONENT resolver pushes for a node, in document
order. -/
def docGroups : RTNode → List (List SbBlokData)
  | .text _ => []
  | .elem _ cs => forestGroups cs
  | .component body =>
    match body with
    | some (.arr bs) => if bs.isEmpty then [] else [bs]
    | _ => []
def forestGroups : RTForest → List (List SbBlokData)
  | .nil => []
  | .cons n f => docGroups n ++ forestGroups f
end

mutual
/-- The rendered output of a node as pieces, `k` being the next group
index. -/
def piecesNode : RTNode → Nat → List Piece
  | .text s, _ => [.raw (escapeHtml s)]
  | .elem t cs, k => .raw (openTag t) :: (piecesForest cs k ++ [.raw (closeTag t)])
  | .component body, k =>
    match body with
    | some (.arr bs) => if bs.isEmpty then [] else [.mark k]
    | _ => []
def piecesForest : RTForest → Nat → List Piece
  | .nil, _ => []
  | .cons n f, k => piecesNode n k ++ piecesForest f (k + (docGroups n).length)
end

def marksOf : List Piece → List Nat
  | [] => []
  | .raw _ :: ps => marksOf ps
  | .mark i :: ps => i :: marksOf ps

/-- What the JS split yields on a piece decomposition: the raw chunks
between markers merged (accumulated in `acc`), the captured digit strings
interleaved. -/
def splitSpecAux : List Piece → List Char → List (List Char)
  | [], acc => [acc]
  | .raw s :: ps, acc => splitSpecAux ps (acc ++ s)
  | .mark i :: ps, acc => acc :: natDigits i :: splitSpecAux ps []

/-- A chunk is clean when it contains no `<` directly followed by `!` and
does not end in `<`: then no marker match can start inside it, whatever
follows. -/
def chunkClean : List Char → Bool
  | [] => true
  | c :: rest =>
    if c = '<' then
      match rest with
      | [] => false
      | d :: _ => decide (d ≠ '!') && chunkClean rest
    else chunkClean rest

def allClean (P : List Piece) : Prop := ∀ s, Piece.raw s ∈ P → chunkClean s = true

def getGroup (groups : List (List SbBlokData)) (i : Nat) : List SbBlokData :=
  match groups.get? i with
  | some bs => bs
  | none => []

/-! ### Decimal digits: rendering and parsing round-trip -/

theorem digitChr_isDigit (d : Nat) : (digitChr d).isDigit = true := by
  unfold digitChr
  split <;> decide

theorem digitVal_digitChr (d : Nat) (h : d < 10) : digitVal (digitChr d) = d := by
  interval_cases d <;> decide

theorem natDigits_all_digit (n : Nat) : ∀ c ∈ natDigits n, c.isDigit = true := by
  intro c hc
  unfold natDigits at hc
  by_cases h : n = 0
  · rw [if_pos h] at hc
    simp only [List.mem_singleton] at hc
    subst hc
    decide
  · rw [if_neg h] at hc
    simp only [List.mem_reverse, List.mem_map] at hc
    obtain ⟨d, _, hd⟩ := hc
    rw [← hd]
    exact digitChr_isDigit d

theorem natDigits_ne_nil (n : Nat) : natDigits n ≠ [] := by
  unfold natDigits
  by_cases h : n = 0
  · simp [h]
  · simp [h, Nat.digits_ne_nil_iff_ne_zero.mpr h]

theorem foldr_ofDigits (ds : List Nat) :
    ds.foldr (fun d a => 10 * a + d) 0 = Nat.ofDigits 10 ds := by
  induction ds with
  | nil => simp [Nat.ofDigits_nil]
  | cons d t ih =>
    simp only [List.foldr_cons, Nat.ofDigits_cons, ih]
    ring

theorem foldr_digit_congr (ds : List Nat) (h : ∀ d ∈ ds, d < 10) :
    ds.foldr (fun d a => 10 * a + digitVal (digitChr d)) 0 =
      ds.foldr (fun d a => 10 * a + d) 0 := by
  induction ds with
  | nil => rfl
  | cons d t ih =>
    simp only [List.foldr_cons]
    rw [ih (fun x hx => h x (List.mem_cons_of_mem _ hx)),
      digitVal_digitChr d (h d (List.mem_cons_self _ _))]

theorem digitsVal_natDigits (n : Nat) : digitsVal (natDigits n) = n := by
  unfold natDigits
  by_cases h : n = 0
  · rw [if_pos h]
    subst h
    decide
  · rw [if_neg h]
    unfold digitsVal
    rw [List.foldl_reverse, List.foldr_map]
    have hmem : ∀ d ∈ Nat.digits 10 n, d < 10 := fun d hd =>
      Nat.digits_lt_base (by norm_num) hd
    rw [foldr_digit_congr _ hmem, foldr_ofDigits, Nat.ofDigits_digits]

/-! ### Clean chunks -/

theorem chunkClean_cons_ne (c : Char) (rest : List Char) (hc : c ≠ '<') :
    chunkClean (c :: rest) = chunkClean rest := by
  simp [chunkClean, hc]

theorem chunkClean_lt_cons (d : Char) (t : List Char) :
    chunkClean ('<' :: d :: t) = (decide (d ≠ '!') && chunkClean (d :: t)) := by
  simp [chunkClean]

theorem chunkClean_append (a b : List Char) (ha : chunkClean a = true)
    (hb : chunkClean b = true) : chunkClean (a ++ b) = true := by
  induction a with
  | nil => simpa using hb
  | cons c a2 ih =>
    rw [List.cons_append]
    by_cases hc : c = '<'
    · subst hc
      cases a2 with
      | nil => simp [chunkClean] at ha
      | cons d t =>
        rw [chunkClean_lt_cons] at ha
        simp only [Bool.and_eq_true, decide_eq_true_eq] at ha
        rw [List.cons_append, chunkClean_lt_cons]
        simp only [Bool.and_eq_true, decide_eq_true_eq]
        exact ⟨ha.1, by rw [← List.cons_append]; exact ih ha.2⟩
    · rw [chunkClean_cons_ne c _ hc] at ha ⊢
      exact ih ha

theorem chunkClean_of_no_lt (l : List Char) (h : '<' ∉ l) : chunkClean l = true := by
  induction l with
  | nil => rfl
  | cons c rest ih =>
    have hc : c ≠ '<' := by
      intro e
      exact h (by simp [e])
    rw [chunkClean_cons_ne c rest hc]
    exact ih (fun hm => h (List.mem_cons_of_mem _ hm))

theorem not_lt_mem_escC (c : Char) : '<' ∉ escC c := by
  unfold escC
  by_cases h1 : c = '<'
  · simp [h1]
  · rw [if_neg h1]
    by_cases h2 : c = '>'
    · simp [h2]
    · rw [if_neg h2]
      by_cases h3 : c = '&'
      · simp [h3]
      · rw [if_neg h3]
        simp only [List.mem_singleton]
        exact fun e => h1 e.symm

theorem not_lt_mem_escapeHtml (l : List Char) : '<' ∉ escapeHtml l := by
  induction l with
  | nil => simp [escapeHtml]
  | cons c rest ih =>
    simp only [escapeHtml, List.mem_append]
    rintro (h | h)
    · exact not_lt_mem_escC c h
    · exact ih h

theorem chunkClean_escapeHtml (l : List Char) : chunkClean (escapeHtml l) = true :=
  chunkClean_of_no_lt _ (not_lt_mem_escapeHtml l)

theorem chunkClean_openTag (t : Tag) : chunkClean (openTag t) = true := by
  cases t <;> decide

theorem chunkClean_closeTag (t : Tag) : chunkClean (closeTag t) = true := by
  cases t <;> decide

theorem allClean_nil : allClean [] := by
  intro s hs
  simp at hs

theorem allClean_append (P Q : List Piece) (hP : allClean P) (hQ : allClean Q) :
    allClean (P ++ Q) := by
  intro s hs
  rcases List.mem_append.mp hs with h | h
  · exact hP s h
  · exact hQ s h

mutual
theorem piecesNode_clean : ∀ (n : RTNode) (k : Nat), allClean (piecesNode n k)
  | .text s, k => by
    intro x hx
    simp only [piecesNode, List.mem_singleton, Piece.raw.injEq] at hx
    rw [hx]
    exact chunkClean_escapeHtml s
  | .elem t cs, k => by
    intro x hx
    simp only [piecesNode, List.mem_cons, List.mem_append, List.mem_singleton,
      Piece.raw.injEq] at hx
    rcases hx with h | h | h | h
    · rw [h]; exact chunkClean_openTag t
    · exact piecesForest_clean cs k x h
    · rw [h]; exact chunkClean_closeTag t
    · simp at h
  | .component body, k => by
    intro x hx
    unfold piecesNode at hx
    cases body with
    | none => simp at hx
    | some bv =>
      cases bv with
      | nonArray => simp at hx
      | arr bs =>
        by_cases hb : bs.isEmpty
        · simp [hb] at hx
        · simp [hb] at hx
theorem piecesForest_clean : ∀ (f : RTForest) (k : Nat), allClean (piecesForest f k)
  | .nil, k => by
    intro x hx
    simp [piecesForest] at hx
  | .cons n f, k => by
    intro x hx
    rw [piecesForest] at hx
    rcases List.mem_append.mp hx with h | h
    · exact piecesNode_clean n k x h
    · exact piecesForest_clean f (k + (docGroups n).length) x h
end

/-! ### Matching and splitting the markers -/

theorem chopLit_self_append (p l : List Char) : chopLit p (p ++ l) = some l := by
  induction p with
  | nil => rfl
  | cons c ps ih => simp [chopLit, ih]

theorem takeWhile_append_all {p : Char → Bool} (a b : List Char)
    (ha : ∀ c ∈ a, p c = true) :
    (a ++ b).takeWhile p = a ++ b.takeWhile p := by
  induction a with
  | nil => rfl
  | cons c t ih =>
    rw [List.cons_append, List.takeWhile_cons]
    rw [ha c (List.mem_cons_self _ _)]
    simp only [if_true]
    rw [ih (fun x hx => ha x (List.mem_cons_of_mem _ hx))]
    simp

theorem dropWhile_append_all {p : Char → Bool} (a b : List Char)
    (ha : ∀ c ∈ a, p c = true) :
    (a ++ b).dropWhile p = b.dropWhile p := by
  induction a with
  | nil => rfl
  | cons c t ih =>
    rw [List.cons_append, List.dropWhile_cons]
    rw [ha c (List.mem_cons_self _ _)]
    simp only [if_true]
    exact ih (fun x hx => ha x (List.mem_cons_of_mem _ hx))

theorem takeWhile_markerSuf (rest : List Char) :
    (markerSuf ++ rest).takeWhile Char.isDigit = [] := by
  rw [markerSuf, List.cons_append, List.takeWhile_cons]
  have h : '-'.isDigit = false := rfl
  rw [h]
  simp

theorem dropWhile_markerSuf (rest : List Char) :
    (markerSuf ++ rest).dropWhile Char.isDigit = markerSuf ++ rest := by
  rw [markerSuf, List.cons_append, List.dropWhile_cons]
  have h : '-'.isDigit = false := rfl
  rw [h]
  simp

theorem matchMarker_marker (i : Nat) (rest : List Char) :
    matchMarker (marker i ++ rest) = some (natDigits i, rest) := by
  have hsplit : marker i ++ rest = markerPre ++ (natDigits i ++ (markerSuf ++ rest)) := by
    simp [marker, List.append_assoc]
  rw [matchMarker, hsplit, chopLit_self_append]
  simp only
  rw [takeWhile_append_all _ _ (natDigits_all_digit i),
    dropWhile_append_all _ _ (natDigits_all_digit i),
    takeWhile_markerSuf, dropWhile_markerSuf]
  rw [List.append_nil]
  rw [if_neg (by simpa using natDigits_ne_nil i)]
  rw [chopLit_self_append]

theorem matchMarker_none_of_not_lt (c : Char) (t : List Char) (hc : c ≠ '<') :
    matchMarker (c :: t) = none := by
  rw [matchMarker, markerPre, chopLit, if_neg hc]

theorem matchMarker_none_of_not_bang (d : Char) (t : List Char) (hd : d ≠ '!') :
    matchMarker ('<' :: d :: t) = none := by
  rw [matchMarker, markerPre, chopLit, if_pos rfl, chopLit, if_neg hd]

theorem splitAux_nil (cur : List Char) : splitAux [] cur = [cur.reverse] := by
  rw [splitAux]

theorem splitAux_cons_none (c : Char) (rest cur : List Char)
    (h : matchMarker (c :: rest) = none) :
    splitAux (c :: rest) cur = splitAux rest (c :: cur) := by
  rw [splitAux]
  split
  · next d after heq =>
    rw [h] at heq
    cases heq
  · rfl

theorem splitAux_cons_some (c : Char) (rest cur d after : List Char)
    (h : matchMarker (c :: rest) = some (d, after)) :
    splitAux (c :: rest) cur = cur.reverse :: d :: splitAux after [] := by
  rw [splitAux]
  split
  · next d2 after2 heq =>
    rw [h] at heq
    simp only [Option.some.injEq, Prod.mk.injEq] at heq
    rw [heq.1, heq.2]
  · next heq =>
    rw [h] at heq
    cases heq

theorem splitAux_chunk (s : List Char) : ∀ (rest cur : List Char),
    chunkClean s = true → splitAux (s ++ rest) cur = splitAux rest (s.reverse ++ cur) := by
  induction s with
  | nil =>
    intro rest cur _
    simp
  | cons c s2 ih =>
    intro rest cur hclean
    rw [List.cons_append]
    by_cases hc : c = '<'
    · subst hc
      cases s2 with
      | nil => simp [chunkClean] at hclean
      | cons d t =>
        rw [chunkClean_lt_cons] at hclean
        simp only [Bool.and_eq_true, decide_eq_true_eq] at hclean
        rw [List.cons_append]
        rw [splitAux_cons_none _ _ _
          (matchMarker_none_of_not_bang d (t ++ rest) hclean.1)]
        rw [← List.cons_append, ih rest ('<' :: cur) hclean.2]
        simp
    · rw [chunkClean_cons_ne c _ hc] at hclean
      have hnone : matchMarker (c :: (s2 ++ rest)) = none :=
        matchMarker_none_of_not_lt c _ hc
      rw [splitAux_cons_none _ _ _ hnone, ih rest (c :: cur) hclean]
      simp

theorem splitAux_marker_head (i : Nat) (rest cur : List Char) :
    splitAux (marker i ++ rest) cur = cur.reverse :: natDigits i :: splitAux rest [] := by
  have h := matchMarker_marker i rest
  have hne : marker i ++ rest = '<' :: (markerPre.tail ++ natDigits i ++ markerSuf ++ rest) := by
    simp [marker, markerPre, List.append_assoc]
  rw [hne] at h ⊢
  exact splitAux_cons_some _ _ _ _ _ h

theorem splitAux_flat (P : List Piece) : ∀ (cur : List Char), allClean P →
    splitAux (flatPieces P) cur = splitSpecAux P cur.reverse := by
  induction P with
  | nil =>
    intro cur _
    rw [flatPieces, splitAux_nil, splitSpecAux]
  | cons piece ps ih =>
    intro cur hclean
    have htail : allClean ps := fun s hs => hclean s (List.mem_cons_of_mem _ hs)
    cases piece with
    | raw s =>
      rw [flatPieces, splitSpecAux]
      rw [splitAux_chunk s _ cur (hclean s (List.mem_cons_self _ _))]
      rw [ih (s.reverse ++ cur) htail]
      simp
    | mark i =>
      rw [flatPieces, splitSpecAux]
      rw [splitAux_marker_head i _ cur]
      rw [ih [] htail]
      rfl

/-! ### The rendered HTML is the flattening of the pieces -/

theorem flatPieces_append (P Q : List Piece) :
    flatPieces (P ++ Q) = flatPieces P ++ flatPieces Q := by
  induction P with
  | nil => rfl
  | cons p ps ih => cases p <;> simp [flatPieces, ih]

mutual
theorem renderNode_eq : ∀ (n : RTNode) (g : List (List SbBlokData)),
    renderNode n g = (flatPieces (piecesNode n g.length), g ++ docGroups n)
  | .text s, g => by
    simp [renderNode, piecesNode, docGroups, flatPieces]
  | .elem t cs, g => by
    have ih := renderForest_eq cs g
    rw [renderNode]
    simp only [ih, piecesNode, docGroups, flatPieces, flatPieces_append]
    simp [List.append_assoc]
  | .component body, g => by
    cases body with
    | none => simp [renderNode, piecesNode, docGroups, flatPieces]
    | some bv =>
      cases bv with
      | nonArray => simp [renderNode, piecesNode, docGroups, flatPieces]
      | arr bs =>
        by_cases hb : bs.isEmpty <;>
          simp [renderNode, piecesNode, docGroups, flatPieces, hb]
theorem renderForest_eq : ∀ (f : RTForest) (g : List (List SbBlokData)),
    renderForest f g = (flatPieces (piecesForest f g.length), g ++ forestGroups f)
  | .nil, g => by
    simp [renderForest, piecesForest, forestGroups, flatPieces]
  | .cons n f, g => by
    have ih1 := renderNode_eq n g
    have ih2 := renderForest_eq f (g ++ docGroups n)
    rw [renderForest]
    simp only [ih1, ih2, piecesForest, forestGroups, flatPieces_append,
      List.length_append, List.append_assoc]
end

/-! ### The marks are the group indices in order -/

/-- `rangeFrom s n = [s, s + 1, …, s + n - 1]`. -/
def rangeFrom (s n : Nat) : List Nat :=
  match n with
  | 0 => []
  | n + 1 => s :: rangeFrom (s + 1) n

theorem rangeFrom_append (m : Nat) : ∀ (s n : Nat),
    rangeFrom s (m + n) = rangeFrom s m ++ rangeFrom (s + m) n := by
  induction m with
  | zero =>
    intro s n
    simp [rangeFrom]
  | succ m ih =>
    intro s n
    have e : m + 1 + n = (m + n) + 1 := by omega
    rw [e, rangeFrom, rangeFrom, ih (s + 1) n]
    simp only [List.cons_append]
    have e2 : s + 1 + m = s + (m + 1) := by omega
    rw [e2]

theorem marksOf_append (P Q : List Piece) : marksOf (P ++ Q) = marksOf P ++ marksOf Q := by
  induction P with
  | nil => rfl
  | cons p ps ih => cases p <;> simp [marksOf, ih]

mutual
theorem marksOf_piecesNode : ∀ (n : RTNode) (k : Nat),
    marksOf (piecesNode n k) = rangeFrom k (docGroups n).length
  | .text s, k => by
    simp [piecesNode, marksOf, docGroups, rangeFrom]
  | .elem t cs, k => by
    have ih := marksOf_piecesForest cs k
    simp [piecesNode, docGroups, marksOf, marksOf_append, ih]
  | .component body, k => by
    cases body with
    | none => simp [piecesNode, marksOf, docGroups, rangeFrom]
    | some bv =>
      cases bv with
      | nonArray => simp [piecesNode, marksOf, docGroups, rangeFrom]
      | arr bs =>
        by_cases hb : bs.isEmpty <;>
          simp [piecesNode, marksOf, docGroups, rangeFrom, hb]
theorem marksOf_piecesForest : ∀ (f : RTForest) (k : Nat),
    marksOf (piecesForest f k) = rangeFrom k (forestGroups f).length
  | .nil, k => by
    simp [piecesForest, marksOf, forestGroups, rangeFrom]
  | .cons n f, k => by
    have ih1 := marksOf_piecesNode n k
    have ih2 := marksOf_piecesForest f (k + (docGroups n).length)
    simp [piecesForest, forestGroups, marksOf_append, ih1, ih2,
      rangeFrom_append, List.length_append]
end

/-! ### Relating the two blok collections -/

mutual
theorem docBloks_eq_join : ∀ (n : RTNode), docBloks n = (docGroups n).flatten
  | .text s => by simp [docBloks, docGroups]
  | .elem t cs => by
    have ih := forestBloks_eq_join cs
    simp [docBloks, docGroups, ih]
  | .component body => by
    cases body with
    | none => simp [docBloks, docGroups]
    | some bv =>
      cases bv with
      | nonArray => simp [docBloks, docGroups]
      | arr bs =>
        by_cases hb : bs.isEmpty
        · have : bs = [] := List.isEmpty_iff.mp hb
          simp [docBloks, docGroups, hb, this]
        · simp [docBloks, docGroups, hb]
theorem forestBloks_eq_join : ∀ (f : RTForest), forestBloks f = (forestGroups f).flatten
  | .nil => by simp [forestBloks, forestGroups]
  | .cons n f => by
    have ih1 := docBloks_eq_join n
    have ih2 := forestBloks_eq_join f
    simp [forestBloks, forestGroups, ih1, ih2]
end

/-! ### The segment loop extracts exactly the marked groups -/

theorem segBloks_append (a b : List Seg) :
    segBloks (a ++ b) = segBloks a ++ segBloks b := by
  simp [segBloks, List.filterMap_append]

theorem segBloks_map_blok (bs : List SbBlokData) : segBloks (bs.map Seg.blok) = bs := by
  induction bs with
  | nil => rfl
  | cons b t ih =>
    simp only [List.map_cons, segBloks, List.filterMap_cons] at ih ⊢
    rw [ih]

theorem segBloks_html_part (part : List Char) :
    segBloks (if (trimJs part).isEmpty then [] else [Seg.html (trimJs part)]) = [] := by
  by_cases h : (trimJs part).isEmpty <;> simp [h, segBloks]

theorem segBloks_segLoop (P : List Piece) :
    ∀ (acc : List Char) (groups : List (List SbBlokData)),
      segBloks (segLoop (splitSpecAux P acc) false groups) =
        (marksOf P).flatMap (getGroup groups) := by
  induction P with
  | nil =>
    intro acc groups
    rw [splitSpecAux, segLoop]
    simp only [Bool.false_eq_true, if_false]
    rw [segLoop, List.append_nil, marksOf, segBloks_html_part]
    rfl
  | cons piece ps ih =>
    intro acc groups
    cases piece with
    | raw s =>
      rw [splitSpecAux, marksOf]
      exact ih (acc ++ s) groups
    | mark i =>
      rw [splitSpecAux, marksOf]
      rw [segLoop]
      simp only [Bool.false_eq_true, if_false]
      rw [segLoop]
      simp only [if_true]
      rw [digitsVal_natDigits]
      rw [segBloks_append, segBloks_append]
      rw [segBloks_html_part, ih [] groups]
      rw [List.flatMap_cons]
      have hg : segBloks
          (match groups.get? i with
           | some bs => bs.map Seg.blok
           | none => []) = getGroup groups i := by
        unfold getGroup
        cases groups.get? i with
        | none => rfl
        | some bs => exact segBloks_map_blok bs
      rw [hg]
      simp

/-! ### C1 assembled -/

theorem get?_append_length {α : Type} (pre l : List α) :
    (pre ++ l).get? pre.length = l.get? 0 := by
  induction pre with
  | nil => rfl
  | cons a t ih => simpa using ih

theorem bind_rangeFrom_getGroup (gs : List (List SbBlokData)) :
    ∀ (pre : List (List SbBlokData)),
      (rangeFrom pre.length gs.length).flatMap (getGroup (pre ++ gs)) = gs.flatten := by
  induction gs with
  | nil =>
    intro pre
    simp [rangeFrom]
  | cons g gs ih =>
    intro pre
    rw [List.length_cons, rangeFrom, List.flatMap_cons]
    have h1 : getGroup (pre ++ g :: gs) pre.length = g := by
      unfold getGroup
      rw [get?_append_length]
      rfl
    rw [h1]
    have h2 := ih (pre ++ [g])
    rw [List.length_append] at h2
    have e : pre ++ [g] ++ gs = pre ++ g :: gs := by simp
    rw [e] at h2
    simp only [List.length_singleton] at h2
    rw [h2]
    simp

/-- C1: `SbRichTextComponent.parseRichText` renders the document as it came
from the SDK: the blok segments, in order, are exactly the bloks of the
non-empty array `body` attributes of COMPONENT nodes, flattened in document
order and unmodified; COMPONENT nodes with a missing, non-array or empty
`body` contribute no segment. -/
theorem parseRichText_renders_all_bloks_in_order (doc : RTNode) :
    segBloks (parseRichText doc) = docBloks doc := by
  unfold parseRichText splitMarkers
  have hr := renderNode_eq doc []
  rw [hr]
  dsimp only
  simp only [List.length_nil, List.nil_append] at *
  rw [splitAux_flat (piecesNode doc 0) [] (piecesNode_clean doc 0)]
  rw [show ([] : List Char).reverse = [] from rfl]
  rw [segBloks_segLoop]
  rw [marksOf_piecesNode]
  have h := bind_rangeFrom_getGroup (docGroups doc) []
  simp only [List.length_nil, List.nil_append] at h
  rw [h]
  exact (docBloks_eq_join doc).symm

end AngularStoryblok
